import Mathlib

/-!
Shallow embedding of the Tag Collection Manager implemented in
src/src/react/components/common/tagsInput/tagsInput.tsx.

The component state, the tag records and every handler with real logic
(handleAddition, handleEditedTag, handleDelete, handleDrag,
componentDidUpdate, getTag and the ITag/IReactTag conversion helpers) are
translated here as pure functions.  React's `setState`+callback pattern is
modelled by returning the new state together with an `Option (List ITag)`:
`some payload` means the `onChange` notification fired once with that
payload, `none` means it did not fire.
-/

namespace VoTT

/-- Record from models/applicationState (not under src/).
Modelled from the spec: a Tag is a pair of a display name (the unique key)
and a color identifier. The source's `toItag` builds exactly these two
fields. -/
structure ITag where
  name : String
  color : String
deriving Repr, DecidableEq

/-- The JSX fragment produced by `ReactTagHtml name color`: a div containing
a color box styled with `color` and a span showing `name`.  The fragment is
fully determined by the name and the color, so it is modelled as this
record. -/
structure RenderedHtml where
  name : String
  color : String
deriving Repr, DecidableEq

/-- Interface for the model required by the lower level tags input
component: `id` plays the role of the name, `text` is the injected HTML. -/
structure IReactTag where
  id : String
  text : RenderedHtml
  color : String
deriving Repr, DecidableEq

/-- Key codes used within the tag input component:
comma 188, enter 13, backspace 8. -/
def KeyCodes.comma : Nat := 188

/-- Enter key code. -/
def KeyCodes.enter : Nat := 13

/-- Backspace key code, reserved to guard deletion. -/
def KeyCodes.backspace : Nat := 8

/-- Current state of the tags input component: the managed tag list, the
rotating color cursor, the tag most recently selected for edit (null
modelled as `none`) and the modal visibility flag. -/
structure TagsInputState where
  tags : List IReactTag
  currentTagColorIndex : Nat
  selectedTag : Option IReactTag
  showModal : Bool
deriving Repr, DecidableEq

/-- `ReactTagHtml name color` from the source, as the rendered-fragment
record. -/
def ReactTagHtml (name : String) (color : String) : RenderedHtml :=
  { name := name, color := color }

/-- `toReactTag`: converts an ITag to an IReactTag (non-null case; the
source maps null to null, which never arises for list elements). -/
def toReactTag (tag : ITag) : IReactTag :=
  { id := tag.name, text := ReactTagHtml tag.name tag.color, color := tag.color }

/-- `toItag`: converts an IReactTag back to an ITag (non-null case). -/
def toItag (tag : IReactTag) : ITag :=
  { name := tag.id, color := tag.color }

/-- `addHtml`: recomputes the tag's rendered fragment from its id and
color. -/
def addHtml (tag : IReactTag) : IReactTag :=
  { tag with text := ReactTagHtml tag.id tag.color }

/-- `toReactTags`: converts a list of ITags to IReactTags (a null input
list is treated as empty; here only actual lists are modelled). -/
def toReactTags (tags : List ITag) : List IReactTag :=
  tags.map toReactTag

/-- `toITags`: converts a list of IReactTags to ITags; this is the payload
handed to the `onChange` notification. -/
def toITags (tags : List IReactTag) : List ITag :=
  tags.map toItag

/-- The component constructor: wraps the initial tags and starts the color
cursor at `c0`.  `c0` stands for `randomIntInRange 0 TagColors.length`
(common/utils, not under src/); the claims quantify over any
`c0 < paletteSize`. -/
def initialState (initialTags : List ITag) (c0 : Nat) : TagsInputState :=
  { tags := toReactTags initialTags
    currentTagColorIndex := c0
    selectedTag := none
    showModal := false }

/-- `handleAddition reactTag`: overwrites the incoming tag's color with the
palette entry at the current color cursor, rebuilds its HTML, appends it to
the tag list, advances the cursor by one modulo the palette length, and
fires `onChange` with the committed list.  `TagColors` (a JSON side file)
is passed in as the palette parameter `P`; JS out-of-range indexing is
modelled by `getD` with a default that never occurs while the cursor stays
in range. -/
def handleAddition (P : List String) (s : TagsInputState) (reactTag : IReactTag) :
    TagsInputState × Option (List ITag) :=
  let colored := { reactTag with color := P.getD s.currentTagColorIndex "" }
  let withHtml := addHtml colored
  let s' := { s with
    tags := s.tags ++ [withHtml]
    currentTagColorIndex := (s.currentTagColorIndex + 1) % P.length }
  (s', some (toITags s'.tags))

/-- Modelled from the spec: the duplicate check is performed by the
external react-tag-input widget before it invokes `handleAddition` (the
source comment in `handleEditedTag` documents it: if the user enters a name
that already exists in tags, the component just does not do anything).  The
Add operation as a whole: a case-sensitive exact match against an existing
id is a silent no-op, otherwise `handleAddition` runs. -/
def addTag (P : List String) (s : TagsInputState) (reactTag : IReactTag) :
    TagsInputState × Option (List ITag) :=
  if s.tags.any (fun t => t.id = reactTag.id) then (s, none)
  else handleAddition P s reactTag

/-- `handleEditedTag newTag`: called after clicking OK in the modal.  If
the edit renames the selected tag to a name already present in the tag
list, nothing happens (state unchanged, no notification, modal stays
open).  Otherwise every entry whose id equals the selected tag's id is
replaced in place by the new tag, the modal is closed, and `onChange`
fires with the committed list.  The source dereferences
`state.selectedTag` unconditionally; the handler is only reachable from
the modal, which is only shown with a selection in place, so the `none`
branch is unreachable and modelled as the identity. -/
def handleEditedTag (s : TagsInputState) (newTag : ITag) :
    TagsInputState × Option (List ITag) :=
  match s.selectedTag with
  | none => (s, none)
  | some sel =>
    let newReactTag := toReactTag newTag
    if newReactTag.id ≠ sel.id ∧ s.tags.any (fun t => t.id = newReactTag.id) then
      (s, none)
    else
      let withHtml := addHtml newReactTag
      let s' := { s with
        tags := s.tags.map (fun reactTag => if reactTag.id = sel.id then withHtml else reactTag)
        showModal := false }
      (s', some (toITags s'.tags))

/-- JS `tags.filter((tag, index) => index !== i)` transcribed with the
running index made explicit via `enum`. -/
def filterIdxNe (l : List IReactTag) (i : Nat) : List IReactTag :=
  (l.enum.filter (fun p => p.1 ≠ i)).map Prod.snd

/-- `handleDelete i event`: a deletion triggered by the backspace key is
explicitly prevented; otherwise the entry at index `i` is filtered out and
`onChange` fires with the committed list (also when `i` was out of range
and the filter removed nothing). -/
def handleDelete (s : TagsInputState) (i : Nat) (keyCode : Nat) :
    TagsInputState × Option (List ITag) :=
  if keyCode = KeyCodes.backspace then (s, none)
  else
    let s' := { s with tags := filterIdxNe s.tags i }
    (s', some (toITags s'.tags))

/-- JS `arr.splice(start, 1)`: removes the element at `start` when it
exists, otherwise removes nothing. -/
def spliceDeleteOne : List IReactTag → Nat → List IReactTag
  | [], _ => []
  | _ :: rest, 0 => rest
  | a :: rest, n + 1 => a :: spliceDeleteOne rest n

/-- JS `arr.splice(start, 0, x)`: inserts `x` at position `start`, clamped
to the array length when `start` runs past the end. -/
def spliceInsertAt : List IReactTag → Nat → IReactTag → List IReactTag
  | l, 0, x => x :: l
  | [], _ + 1, x => [x]
  | a :: rest, n + 1, x => a :: spliceInsertAt rest n x

/-- `handleDrag tag currPos newPos`: click-and-drag re-ordering.  A copy of
the tag list is spliced: one element removed at `currPos`, then the `tag`
argument inserted at `newPos`; the result is committed and `onChange`
fires with it. -/
def handleDrag (s : TagsInputState) (tag : IReactTag) (currPos newPos : Nat) :
    TagsInputState × Option (List ITag) :=
  let newTags := spliceInsertAt (spliceDeleteOne s.tags currPos) newPos tag
  ({ s with tags := newTags }, some (toITags newTags))

/-- `componentDidUpdate`: when the props carry a tag list that is
identity-distinct from the previous one (JS `!==`, modelled by the
`identityDistinct` flag), the tag list is rebuilt from the new props;
nothing else in the state changes and `onChange` is not called. -/
def componentDidUpdate (s : TagsInputState) (newTags : List ITag)
    (identityDistinct : Bool) : TagsInputState × Option (List ITag) :=
  if identityDistinct then ({ s with tags := toReactTags newTags }, none)
  else (s, none)

/-- `getTag id`: finds the tag with the given id; throws an Error with the
message below when there is none (modelled with `Except`). -/
def getTag (s : TagsInputState) (id : String) : Except String IReactTag :=
  match s.tags.find? (fun tag => tag.id = id) with
  | some mtch => Except.ok mtch
  | none => Except.error ("No tag by id: " ++ id)

/-- `handleCloseModal`: sets showModal to false. -/
def handleCloseModal (s : TagsInputState) : TagsInputState :=
  { s with showModal := false }

/-- The Selection of the spec, read off the component state: the tag
targeted for edit is the modal's subject while the modal is shown; when
the modal is closed no tag is targeted. -/
def selection (s : TagsInputState) : Option IReactTag :=
  if s.showModal then s.selectedTag else none

/-- Names (ids) of a managed tag list are pairwise distinct. -/
def uniqueNames (l : List IReactTag) : Prop :=
  (l.map IReactTag.id).Nodup

instance (l : List IReactTag) : Decidable (uniqueNames l) := by
  unfold uniqueNames; infer_instance

/-- One user-triggered operation on the manager, as the UI invokes the
handlers: Add (a fresh widget tag), Rename/Recolor (a selection made by
ctrl-click followed by OK in the modal), Delete (an index and the key code
that triggered it), Reorder (a drag between two positions: the widget hands
`handleDrag` the tag currently displayed at `currPos`), and the external
refresh with a new authoritative tag list. -/
inductive TagOp where
  | add (reactTag : IReactTag)
  | edit (sel : IReactTag) (newTag : ITag)
  | del (i : Nat) (keyCode : Nat)
  | drag (currPos : Nat) (newPos : Nat)
  | refresh (newTags : List ITag)
deriving Repr, DecidableEq

/-- Applies one operation to the component state, returning the new state
and the `onChange` payload if the notification fired.  `edit` stores the
selection the way `handleTagClick` does (selectedTag set, modal shown)
before running `handleEditedTag`.  `drag` reads the dragged tag at its
current position; the widget cannot start a drag at a position that does
not exist, so that branch is modelled as the identity. -/
def applyOp (P : List String) (s : TagsInputState) :
    TagOp → TagsInputState × Option (List ITag)
  | .add reactTag => addTag P s reactTag
  | .edit sel newTag =>
    handleEditedTag { s with selectedTag := some sel, showModal := true } newTag
  | .del i keyCode => handleDelete s i keyCode
  | .drag currPos newPos =>
    match s.tags[currPos]? with
    | some tag => handleDrag s tag currPos newPos
    | none => (s, none)
  | .refresh newTags => componentDidUpdate s newTags true

/-- Runs a sequence of operations, committing each state in turn. -/
def runOps (P : List String) (s : TagsInputState) : List TagOp → TagsInputState
  | [] => s
  | op :: rest => runOps P (applyOp P s op).1 rest

/-- Side condition on the operation stream: an external refresh carries an
authoritative tag list, whose names are unique keys; every other operation
is unconstrained. -/
def opOk : TagOp → Prop
  | .refresh newTags => (newTags.map ITag.name).Nodup
  | _ => True

instance (op : TagOp) : Decidable (opOk op) :=
  match op with
  | .refresh newTags => inferInstanceAs (Decidable ((newTags.map ITag.name).Nodup))
  | .add _ => inferInstanceAs (Decidable True)
  | .edit _ _ => inferInstanceAs (Decidable True)
  | .del _ _ => inferInstanceAs (Decidable True)
  | .drag _ _ => inferInstanceAs (Decidable True)

/-- The operations that reach commit and hence fire the notification: an
Add whose name is not already present, an edit that passes the rename
collision check, a Delete not triggered by backspace, and a drag of an
existing position; an external refresh never notifies. -/
def notifies (s : TagsInputState) : TagOp → Prop
  | .add reactTag => ¬ s.tags.any (fun t => t.id = reactTag.id) = true
  | .edit sel newTag =>
    ¬ ((toReactTag newTag).id ≠ sel.id ∧
        s.tags.any (fun t => t.id = (toReactTag newTag).id) = true)
  | .del _ keyCode => keyCode ≠ KeyCodes.backspace
  | .drag currPos _ => currPos < s.tags.length
  | .refresh _ => False

/-- Iterates `handleAddition` over a list of incoming widget tags: the
successful Adds of a session, with no intervening duplicate rejections. -/
def addSeq (P : List String) (s : TagsInputState) : List IReactTag → TagsInputState
  | [] => s
  | t :: rest => addSeq P (handleAddition P s t).1 rest

/-- A concrete managed tag named A, colored red. -/
def tagA : IReactTag :=
  { id := "A", text := ReactTagHtml "A" "red", color := "red" }

/-- A concrete managed tag named B, colored blue. -/
def tagB : IReactTag :=
  { id := "B", text := ReactTagHtml "B" "blue", color := "blue" }

/-- A raw widget tag as the lower-level component hands it to
`handleAddition`: the id is the typed name; color and text are about to be
overwritten by the handler. -/
def rawTag (n : String) : IReactTag :=
  { id := n, text := ReactTagHtml n "", color := "" }

/-- A concrete palette, as in the spec scenario. -/
def examplePalette : List String := ["red", "blue", "green"]

/-- A concrete component state holding tags A and B. -/
def exState : TagsInputState :=
  { tags := [tagA, tagB]
    currentTagColorIndex := 0
    selectedTag := none
    showModal := false }

/-! ## Helper lemmas -/

/-- Round-tripping a Tag through the managed representation is the
identity. -/
theorem toItag_toReactTag (t : ITag) : toItag (toReactTag t) = t := rfl

/-- Projecting a rebuilt managed list back to Tags gives the input list. -/
theorem toITags_toReactTags (l : List ITag) : toITags (toReactTags l) = l := by
  rw [toITags, toReactTags, List.map_map]
  exact List.map_id l

/-- The index-carrying JS filter, started at numbering offset `n`, erases
the element at offset `i - n` (and erases nothing when the numbering has
already passed `i`). -/
theorem enumFrom_filter_ne (i : Nat) (l : List IReactTag) : ∀ n : Nat,
    ((l.enumFrom n).filter (fun p => p.1 ≠ i)).map Prod.snd =
      if n ≤ i then l.eraseIdx (i - n) else l := by
  induction l with
  | nil => intro n; simp
  | cons a rest ih =>
    intro n
    rw [List.enumFrom_cons, List.filter_cons]
    rcases Nat.lt_trichotomy n i with hni | hni | hni
    · rw [if_pos (by simp; omega), List.map_cons, ih (n + 1),
        if_pos (by omega : n + 1 ≤ i), if_pos (by omega : n ≤ i),
        (by omega : i - n = (i - (n + 1)) + 1), List.eraseIdx_cons_succ]
    · subst hni
      rw [if_neg (by simp), ih (n + 1), if_neg (by omega : ¬ (n + 1 ≤ n)),
        if_pos (Nat.le_refl n), Nat.sub_self, List.eraseIdx_cons_zero]
    · rw [if_pos (by simp; omega), List.map_cons, ih (n + 1),
        if_neg (by omega : ¬ (n + 1 ≤ i)), if_neg (by omega : ¬ (n ≤ i))]

/-- The JS filter on the running index equals removal at that index. -/
theorem filterIdxNe_eq_eraseIdx (l : List IReactTag) (i : Nat) :
    filterIdxNe l i = l.eraseIdx i := by
  have h := enumFrom_filter_ne i l 0
  rw [if_pos (Nat.zero_le i), Nat.sub_zero] at h
  have e : l.enum = l.enumFrom 0 := rfl
  rw [filterIdxNe, e, h]

/-- JS splice-remove-one equals removal at the index. -/
theorem spliceDeleteOne_eq_eraseIdx : ∀ (l : List IReactTag) (i : Nat),
    spliceDeleteOne l i = l.eraseIdx i := by
  intro l
  induction l with
  | nil => intro i; cases i <;> rfl
  | cons a rest ih => intro i; cases i with
    | zero => rfl
    | succ m => simp [spliceDeleteOne, List.eraseIdx_cons_succ, ih]

/-- JS splice-insert agrees with `insertIdx` while the start position is
within the array. -/
theorem spliceInsertAt_eq_insertIdx (x : IReactTag) : ∀ (l : List IReactTag) (n : Nat),
    n ≤ l.length → spliceInsertAt l n x = List.insertIdx n x l := by
  intro l
  induction l with
  | nil =>
    intro n hn
    have h0 : n = 0 := Nat.le_zero.mp hn
    subst h0; rfl
  | cons a rest ih => intro n hn; cases n with
    | zero => rfl
    | succ m =>
      simp only [spliceInsertAt, List.insertIdx_succ_cons]
      rw [ih m (by simpa using hn)]

/-- Splicing an element in anywhere permutes it to the front. -/
theorem spliceInsertAt_perm (x : IReactTag) : ∀ (l : List IReactTag) (n : Nat),
    (spliceInsertAt l n x).Perm (x :: l) := by
  intro l
  induction l with
  | nil => intro n; cases n <;> exact List.Perm.refl _
  | cons a rest ih => intro n; cases n with
    | zero => exact List.Perm.refl _
    | succ m =>
      have h1 : (a :: spliceInsertAt rest m x).Perm (a :: x :: rest) :=
        (ih m).cons a
      exact h1.trans (List.Perm.swap x a rest)

/-- Putting the element read at index `i` back in front of the list with
index `i` erased permutes to the original list. -/
theorem get_cons_eraseIdx_perm : ∀ (l : List IReactTag) (i : Nat) (h : i < l.length),
    (l.get ⟨i, h⟩ :: l.eraseIdx i).Perm l := by
  intro l
  induction l with
  | nil => intro i h; simp at h
  | cons a rest ih =>
    intro i h
    cases i with
    | zero => exact List.Perm.refl _
    | succ m =>
      have hm : m < rest.length := by simpa using h
      have h1 : (rest.get ⟨m, hm⟩ :: rest.eraseIdx m).Perm rest := ih m hm
      have h2 : ((a :: rest).get ⟨m + 1, h⟩ :: (a :: rest).eraseIdx (m + 1)) =
          rest.get ⟨m, hm⟩ :: a :: rest.eraseIdx m := by
        simp [List.eraseIdx_cons_succ]
      rw [h2]
      exact (List.Perm.swap a _ _).trans (h1.cons a)

/-! ## Claim theorems -/

/-- C2: Add with a name already present in the Collection (case-sensitive
exact match on the id) is a silent no-op: the whole state, in particular
the tag list and the color cursor, is byte-for-byte unchanged, and no
change notification fires. -/
theorem addTag_duplicate_noop (P : List String) (s : TagsInputState)
    (reactTag : IReactTag)
    (hdup : s.tags.any (fun t => t.id = reactTag.id) = true) :
    addTag P s reactTag = (s, none) ∧
    (addTag P s reactTag).1.tags = s.tags ∧
    (addTag P s reactTag).1.currentTagColorIndex = s.currentTagColorIndex ∧
    (addTag P s reactTag).2 = none := by
  have h : addTag P s reactTag = (s, none) := by
    rw [addTag, if_pos hdup]
  exact ⟨h, by rw [h], by rw [h], by rw [h]⟩

/-- Witness for C2 at a concrete state: A is already present, so adding A
again leaves the state untouched and fires no notification. -/
theorem addTag_duplicate_noop_witness :
    exState.tags.any (fun t => t.id = (rawTag "A").id) = true ∧
    addTag examplePalette exState (rawTag "A") = (exState, none) :=
  ⟨by decide,
    (addTag_duplicate_noop examplePalette exState (rawTag "A") (by decide)).1⟩

/-- C5: a rename whose new name differs from the selected tag's name and
already occurs in the Collection is rejected: the state is unchanged, no
notification fires, and the selection/edit modal stays open. -/
theorem handleEditedTag_rejects_duplicate (s : TagsInputState) (sel : IReactTag)
    (newTag : ITag) (hsel : s.selectedTag = some sel) (hopen : s.showModal = true)
    (hne : newTag.name ≠ sel.id)
    (hdup : s.tags.any (fun t => t.id = newTag.name) = true) :
    handleEditedTag s newTag = (s, none) ∧
    selection (handleEditedTag s newTag).1 = some sel := by
  have h : handleEditedTag s newTag = (s, none) := by
    rw [handleEditedTag, hsel]
    simp only [toReactTag]
    rw [if_pos ⟨hne, hdup⟩]
  refine ⟨h, ?_⟩
  rw [h, selection, hopen, if_pos rfl, hsel]

/-- Witness for C5: with A selected, renaming A to the already-present
name B is declined, the modal stays open on A. -/
theorem handleEditedTag_rejects_duplicate_witness :
    handleEditedTag
        { exState with selectedTag := some tagA, showModal := true }
        { name := "B", color := "yellow" } =
      ({ exState with selectedTag := some tagA, showModal := true }, none) ∧
    selection (handleEditedTag
        { exState with selectedTag := some tagA, showModal := true }
        { name := "B", color := "yellow" }).1 = some tagA :=
  handleEditedTag_rejects_duplicate
    { exState with selectedTag := some tagA, showModal := true }
    tagA { name := "B", color := "yellow" } rfl rfl (by decide) (by decide)

/-- C6: a rename/recolor that passes the duplicate check replaces, in
place, exactly the entries whose id equals the selected tag's id by the
new tag data, keeps the length and the color cursor, clears the
selection (the modal closes), and fires the notification with the full
committed tag list. -/
theorem handleEditedTag_success (s : TagsInputState) (sel : IReactTag)
    (newTag : ITag) (hsel : s.selectedTag = some sel)
    (hok : newTag.name = sel.id ∨ s.tags.all (fun t => t.id ≠ newTag.name) = true) :
    (handleEditedTag s newTag).1.tags =
      s.tags.map (fun rt => if rt.id = sel.id then toReactTag newTag else rt) ∧
    (handleEditedTag s newTag).1.tags.length = s.tags.length ∧
    selection (handleEditedTag s newTag).1 = none ∧
    (handleEditedTag s newTag).2 = some (toITags (handleEditedTag s newTag).1.tags) ∧
    (handleEditedTag s newTag).1.currentTagColorIndex = s.currentTagColorIndex := by
  have hguard : ¬ ((toReactTag newTag).id ≠ sel.id ∧
      s.tags.any (fun t => t.id = (toReactTag newTag).id) = true) := by
    rcases hok with h | h
    · intro hc; exact hc.1 h
    · intro hc
      rcases List.any_eq_true.mp hc.2 with ⟨t, ht, hid⟩
      have := List.all_eq_true.mp h t ht
      simp only [toReactTag] at hid
      simp [of_decide_eq_true hid] at this
  have hh : handleEditedTag s newTag =
      ({ s with
          tags := s.tags.map
            (fun rt => if rt.id = sel.id then addHtml (toReactTag newTag) else rt)
          showModal := false },
        some (toITags (s.tags.map
          (fun rt => if rt.id = sel.id then addHtml (toReactTag newTag) else rt)))) := by
    rw [handleEditedTag, hsel]
    simp only [if_neg hguard]
  have hah : addHtml (toReactTag newTag) = toReactTag newTag := rfl
  rw [hh]
  refine ⟨by rw [hah], by simp, ?_, by rw [hah], rfl⟩
  rw [selection]
  simp

/-- Witness for C6 at the spec scenario: with A (red) selected among
tags A and B, submitting A with color yellow succeeds; the entry becomes
A yellow in the same (first) position, the modal closes, the notification
carries the committed list. -/
theorem handleEditedTag_success_witness :
    ((handleEditedTag
        { exState with selectedTag := some tagA, showModal := true }
        { name := "A", color := "yellow" }).1.tags =
      [tagA, tagB].map
        (fun rt => if rt.id = tagA.id
          then toReactTag { name := "A", color := "yellow" } else rt) ∧
    (handleEditedTag
        { exState with selectedTag := some tagA, showModal := true }
        { name := "A", color := "yellow" }).1.tags.length = [tagA, tagB].length ∧
    selection (handleEditedTag
        { exState with selectedTag := some tagA, showModal := true }
        { name := "A", color := "yellow" }).1 = none ∧
    (handleEditedTag
        { exState with selectedTag := some tagA, showModal := true }
        { name := "A", color := "yellow" }).2 =
      some (toITags (handleEditedTag
        { exState with selectedTag := some tagA, showModal := true }
        { name := "A", color := "yellow" }).1.tags) ∧
    (handleEditedTag
        { exState with selectedTag := some tagA, showModal := true }
        { name := "A", color := "yellow" }).1.currentTagColorIndex =
      exState.currentTagColorIndex) ∧
    (handleEditedTag
        { exState with selectedTag := some tagA, showModal := true }
        { name := "A", color := "yellow" }).1.tags =
      [toReactTag { name := "A", color := "yellow" }, tagB] :=
  ⟨handleEditedTag_success
      { exState with selectedTag := some tagA, showModal := true }
      tagA { name := "A", color := "yellow" } rfl (Or.inl rfl),
    by decide⟩

/-- C7: a Delete triggered by the backspace key code changes nothing
regardless of the index; any other Delete removes exactly the entry at an
in-range index (the later entries shifting left by one), and leaves the
tag list unchanged when the index is out of range. -/
theorem handleDelete_spec (s : TagsInputState) (i : Nat) (keyCode : Nat) :
    (keyCode = KeyCodes.backspace →
      (handleDelete s i keyCode).1 = s ∧ (handleDelete s i keyCode).2 = none) ∧
    (keyCode ≠ KeyCodes.backspace → i < s.tags.length →
      (handleDelete s i keyCode).1.tags = s.tags.eraseIdx i) ∧
    (keyCode ≠ KeyCodes.backspace → s.tags.length ≤ i →
      (handleDelete s i keyCode).1.tags = s.tags) := by
  refine ⟨?_, ?_, ?_⟩
  · intro hb
    rw [handleDelete, if_pos hb]
    exact ⟨rfl, rfl⟩
  · intro hb _
    rw [handleDelete, if_neg hb]
    exact filterIdxNe_eq_eraseIdx s.tags i
  · intro hb hout
    rw [handleDelete, if_neg hb]
    simp only [filterIdxNe_eq_eraseIdx]
    exact List.eraseIdx_eq_self.mpr hout

/-- Witness for C7: backspace at index 0 leaves the state alone; enter at
index 0 erases exactly the first tag; enter at index 5 (out of range)
leaves the tag list unchanged. -/
theorem handleDelete_spec_witness :
    ((handleDelete exState 0 KeyCodes.backspace).1 = exState ∧
      (handleDelete exState 0 KeyCodes.backspace).2 = none) ∧
    (handleDelete exState 0 KeyCodes.enter).1.tags = exState.tags.eraseIdx 0 ∧
    (handleDelete exState 5 KeyCodes.enter).1.tags = exState.tags :=
  ⟨(handleDelete_spec exState 0 KeyCodes.backspace).1 rfl,
    (handleDelete_spec exState 0 KeyCodes.enter).2.1 (by decide) (by decide),
    (handleDelete_spec exState 5 KeyCodes.enter).2.2 (by decide) (by decide)⟩

/-- C9: an external refresh with an identity-distinct authoritative tag
list rebuilds the Collection from that list, preserving order and color
exactly (projecting the rebuilt list back gives the input), leaves the
color cursor and the selection state unchanged, and fires no
notification. -/
theorem componentDidUpdate_refresh (s : TagsInputState) (newTags : List ITag) :
    (componentDidUpdate s newTags true).1.tags = toReactTags newTags ∧
    toITags (componentDidUpdate s newTags true).1.tags = newTags ∧
    (componentDidUpdate s newTags true).1.currentTagColorIndex =
      s.currentTagColorIndex ∧
    (componentDidUpdate s newTags true).1.selectedTag = s.selectedTag ∧
    (componentDidUpdate s newTags true).1.showModal = s.showModal ∧
    (componentDidUpdate s newTags true).2 = none :=
  ⟨rfl, toITags_toReactTags newTags, rfl, rfl, rfl, rfl⟩

/-- C10: Lookup finds a managed tag with the requested id whenever one is
in the Collection, and fails hard (an Error value, not a silent fallback)
exactly when no tag has that id. -/
theorem getTag_spec (s : TagsInputState) (name : String) :
    ((∃ t ∈ s.tags, t.id = name) →
      ∃ t, getTag s name = Except.ok t ∧ t ∈ s.tags ∧ t.id = name) ∧
    ((∀ t ∈ s.tags, t.id ≠ name) →
      getTag s name = Except.error ("No tag by id: " ++ name)) := by
  constructor
  · intro hex
    rw [getTag]
    cases hfind : s.tags.find? (fun tag => tag.id = name) with
    | some t =>
      refine ⟨t, rfl, List.mem_of_find?_eq_some hfind, ?_⟩
      have := List.find?_some hfind
      exact of_decide_eq_true this
    | none =>
      obtain ⟨t, ht, hid⟩ := hex
      have hnone := List.find?_eq_none.mp hfind t ht
      simp [hid] at hnone
  · intro hall
    rw [getTag]
    cases hfind : s.tags.find? (fun tag => tag.id = name) with
    | some t =>
      have h1 := List.find?_some hfind
      have h2 := List.mem_of_find?_eq_some hfind
      exact absurd (of_decide_eq_true h1) (hall t h2)
    | none => rfl

/-- Witness for C10: looking up A in the concrete state succeeds with a
tag named A; looking up the absent Z fails with the NotFound error
message. -/
theorem getTag_spec_witness :
    (∃ t, getTag exState "A" = Except.ok t ∧ t ∈ exState.tags ∧ t.id = "A") ∧
    getTag exState "Z" = Except.error ("No tag by id: " ++ "Z") :=
  ⟨(getTag_spec exState "A").1 ⟨tagA, by decide, rfl⟩,
    (getTag_spec exState "Z").2 (by decide)⟩

/-- C8: with both positions in range, a drag commits exactly the sequence
obtained by first removing one element at currPos and then inserting the
tag argument (not the element re-read from currPos) at newPos in the
shortened sequence; erasing the moved element back out of the result
returns that shortened sequence, so the relative order of all other
elements is unchanged. -/
theorem handleDrag_spec (s : TagsInputState) (tag : IReactTag)
    (currPos newPos : Nat) (h1 : currPos < s.tags.length)
    (h2 : newPos < s.tags.length) :
    (handleDrag s tag currPos newPos).1.tags =
      List.insertIdx newPos tag (s.tags.eraseIdx currPos) ∧
    ((handleDrag s tag currPos newPos).1.tags).eraseIdx newPos =
      s.tags.eraseIdx currPos := by
  have hlen : newPos ≤ (s.tags.eraseIdx currPos).length := by
    have := List.length_eraseIdx_add_one h1
    omega
  have htags : (handleDrag s tag currPos newPos).1.tags =
      List.insertIdx newPos tag (s.tags.eraseIdx currPos) := by
    show spliceInsertAt (spliceDeleteOne s.tags currPos) newPos tag = _
    rw [spliceDeleteOne_eq_eraseIdx, spliceInsertAt_eq_insertIdx _ _ _ hlen]
  exact ⟨htags, by rw [htags, List.eraseIdx_insertIdx]⟩

/-- Witness for C8: dragging a stale copy of B from position 0 to
position 1 of the concrete two-tag state yields erase-then-insert, and
erasing position 1 of the result gives back the shortened list. -/
theorem handleDrag_spec_witness :
    (handleDrag exState (rawTag "B") 0 1).1.tags =
      List.insertIdx 1 (rawTag "B") (exState.tags.eraseIdx 0) ∧
    ((handleDrag exState (rawTag "B") 0 1).1.tags).eraseIdx 1 =
      exState.tags.eraseIdx 0 :=
  handleDrag_spec exState (rawTag "B") 0 1 (by decide) (by decide)

/-- The color cursor after a run of successful Adds advances once per Add,
modulo the palette size. -/
theorem addSeq_cursor (P : List String) (hP : 0 < P.length) :
    ∀ (ts : List IReactTag) (s : TagsInputState),
      s.currentTagColorIndex < P.length →
      (addSeq P s ts).currentTagColorIndex =
        (s.currentTagColorIndex + ts.length) % P.length := by
  intro ts
  induction ts with
  | nil =>
    intro s hc
    simp only [addSeq, List.length_nil, Nat.add_zero]
    exact (Nat.mod_eq_of_lt hc).symm
  | cons t rest ih =>
    intro s hc
    have h1 := ih (handleAddition P s t).1 (Nat.mod_lt _ hP)
    simp only [addSeq] at h1 ⊢
    rw [h1]
    show ((s.currentTagColorIndex + 1) % P.length + rest.length) % P.length = _
    rw [Nat.mod_add_mod]
    congr 1
    simp only [List.length_cons]
    omega

/-- The tag list after a run of successful Adds: one entry longer per Add,
the pre-existing entries untouched, and the i-th added tag appended at
offset i carrying the palette color read at cursor position
(c0 + i) mod paletteSize (with its HTML rebuilt from it). -/
theorem addSeq_tags_lookup (P : List String) (hP : 0 < P.length) :
    ∀ (ts : List IReactTag) (s : TagsInputState),
      s.currentTagColorIndex < P.length →
      ((addSeq P s ts).tags.length = s.tags.length + ts.length ∧
       (∀ j, j < s.tags.length → (addSeq P s ts).tags[j]? = s.tags[j]?) ∧
       (∀ i, (hi : i < ts.length) →
         (addSeq P s ts).tags[s.tags.length + i]? =
           some (addHtml { ts.get ⟨i, hi⟩ with
             color := P.getD ((s.currentTagColorIndex + i) % P.length) "" }))) := by
  intro ts
  induction ts with
  | nil =>
    intro s hc
    exact ⟨by simp [addSeq], fun j hj => by simp [addSeq],
      fun i hi => absurd hi (by simp)⟩
  | cons t rest ih =>
    intro s hc
    obtain ⟨ihlen, ihpre, ihget⟩ := ih (handleAddition P s t).1 (Nat.mod_lt _ hP)
    have hs1tags : (handleAddition P s t).1.tags =
        s.tags ++ [addHtml { t with color := P.getD s.currentTagColorIndex "" }] := rfl
    have hs1len : (handleAddition P s t).1.tags.length = s.tags.length + 1 := by
      rw [hs1tags]; simp
    refine ⟨?_, ?_, ?_⟩
    · show (addSeq P (handleAddition P s t).1 rest).tags.length = _
      rw [ihlen, hs1len]
      simp only [List.length_cons]
      omega
    · intro j hj
      show (addSeq P (handleAddition P s t).1 rest).tags[j]? = s.tags[j]?
      rw [ihpre j (by omega), hs1tags]
      exact List.getElem?_append_left hj
    · intro i hi
      show (addSeq P (handleAddition P s t).1 rest).tags[s.tags.length + i]? = _
      cases i with
      | zero =>
        rw [Nat.add_zero, ihpre s.tags.length (by omega), hs1tags,
          List.getElem?_append_right (Nat.le_refl _), Nat.sub_self]
        simp [Nat.mod_eq_of_lt hc]
      | succ m =>
        have hm : m < rest.length := by
          simpa using Nat.lt_of_succ_lt_succ hi
        have hidx : s.tags.length + (m + 1) =
            (handleAddition P s t).1.tags.length + m := by
          rw [hs1len]; omega
        rw [hidx, ihget m hm]
        have hcol : ((handleAddition P s t).1.currentTagColorIndex + m) % P.length =
            (s.currentTagColorIndex + (m + 1)) % P.length := by
          show ((s.currentTagColorIndex + 1) % P.length + m) % P.length = _
          rw [Nat.mod_add_mod]
          congr 1
          omega
        rw [hcol]
        rfl

/-- C4: starting from any cursor position c0 within the palette (the
constructor draws it at random from that range), after k successful Adds
with no intervening duplicate rejections the cursor equals
(c0 + k) mod paletteSize, and the i-th successfully added tag receives
the palette color at index (c0 + i) mod paletteSize. -/
theorem addSeq_color_rotation (P : List String) (hP : 0 < P.length)
    (s : TagsInputState) (hc : s.currentTagColorIndex < P.length)
    (ts : List IReactTag) :
    (addSeq P s ts).currentTagColorIndex =
      (s.currentTagColorIndex + ts.length) % P.length ∧
    ∀ i, (hi : i < ts.length) →
      (addSeq P s ts).tags[s.tags.length + i]? =
        some (addHtml { ts.get ⟨i, hi⟩ with
          color := P.get ⟨(s.currentTagColorIndex + i) % P.length,
            Nat.mod_lt _ hP⟩ }) := by
  refine ⟨addSeq_cursor P hP ts s hc, ?_⟩
  intro i hi
  rw [(addSeq_tags_lookup P hP ts s hc).2.2 i hi]
  have hgd : ∀ (idx : Nat) (h : idx < P.length), P.getD idx "" = P.get ⟨idx, h⟩ := by
    intro idx h
    rw [List.getD_eq_getElem?_getD, List.getElem?_eq_getElem h]
    rfl
  rw [hgd _ (Nat.mod_lt _ hP)]

/-- Witness for C4 at the spec scenario: empty initial collection, palette
red/blue/green, cursor starting at 0; after adding A and B the cursor is
at 2, A got red (palette index 0) and B got blue (palette index 1). -/
theorem addSeq_color_rotation_witness :
    0 < examplePalette.length ∧
    (initialState [] 0).currentTagColorIndex < examplePalette.length ∧
    (addSeq examplePalette (initialState [] 0)
        [rawTag "A", rawTag "B"]).currentTagColorIndex = 2 ∧
    (addSeq examplePalette (initialState [] 0) [rawTag "A", rawTag "B"]).tags[0]? =
      some (addHtml { rawTag "A" with color := "red" }) ∧
    (addSeq examplePalette (initialState [] 0) [rawTag "A", rawTag "B"]).tags[1]? =
      some (addHtml { rawTag "B" with color := "blue" }) := by
  have h := addSeq_color_rotation examplePalette (by decide) (initialState [] 0)
    (by decide) [rawTag "A", rawTag "B"]
  refine ⟨by decide, by decide, by rw [h.1]; decide, ?_, ?_⟩
  · exact h.2 0 (by decide)
  · exact h.2 1 (by decide)

/-- C3 as stated fails on the code: a Delete at the out-of-range index 5
of a two-tag collection leaves the Collection unchanged — a no-op — yet
the change notification still fires (carrying the unchanged projected
list). -/
theorem handleDelete_noop_still_notifies :
    (handleDelete exState 5 KeyCodes.enter).1.tags = exState.tags ∧
    (handleDelete exState 5 KeyCodes.enter).2 = some (toITags exState.tags) := by
  decide

/-- C3 amended: the notification fires exactly once per operation that
reaches commit — every operation other than a duplicate Add, a rejected
rename, a backspace-guarded Delete and the external refresh — even when
the committed Collection happens to equal the previous one (such as an
out-of-range Delete); whenever it fires, the payload is exactly the
already-committed tag list projected to name/color pairs. -/
theorem applyOp_notification (P : List String) (s : TagsInputState) (op : TagOp) :
    ((applyOp P s op).2.isSome = true ↔ notifies s op) ∧
    (∀ payload, (applyOp P s op).2 = some payload →
      payload = toITags (applyOp P s op).1.tags) := by
  cases op with
  | add reactTag =>
    by_cases hd : s.tags.any (fun t => t.id = reactTag.id) = true
    · constructor
      · simp [applyOp, addTag, hd, notifies]
      · intro payload hp
        simp [applyOp, addTag, hd] at hp
    · constructor
      · simp [applyOp, addTag, hd, notifies, handleAddition]
      · intro payload hp
        simp only [applyOp, addTag, if_neg hd, handleAddition] at hp ⊢
        simpa using hp.symm
  | edit sel newTag =>
    by_cases hg : ((toReactTag newTag).id ≠ sel.id ∧
        s.tags.any (fun t => t.id = (toReactTag newTag).id) = true)
    · constructor
      · simp only [applyOp, handleEditedTag, if_pos hg]
        simp [notifies, hg]
      · intro payload hp
        simp only [applyOp, handleEditedTag, if_pos hg] at hp
        simp at hp
    · constructor
      · simp only [applyOp, handleEditedTag, if_neg hg]
        exact ⟨fun _ => hg, fun _ => rfl⟩
      · intro payload hp
        simp only [applyOp, handleEditedTag, if_neg hg] at hp ⊢
        simpa using hp.symm
  | del i keyCode =>
    by_cases hb : keyCode = KeyCodes.backspace
    · constructor
      · simp [applyOp, handleDelete, hb, notifies]
      · intro payload hp
        simp [applyOp, handleDelete, hb] at hp
    · constructor
      · simp [applyOp, handleDelete, hb, notifies]
      · intro payload hp
        simp only [applyOp, handleDelete, if_neg hb] at hp ⊢
        simpa using hp.symm
  | drag currPos newPos =>
    cases hq : s.tags[currPos]? with
    | some tag =>
      have hlt : currPos < s.tags.length := by
        by_contra hge
        rw [List.getElem?_eq_none (by omega)] at hq
        exact Option.noConfusion hq
      constructor
      · simp only [applyOp, hq, handleDrag, notifies]
        simpa using hlt
      · intro payload hp
        simp only [applyOp, hq, handleDrag] at hp ⊢
        simpa using hp.symm
    | none =>
      have hge : s.tags.length ≤ currPos := by
        by_contra hlt
        rw [List.getElem?_eq_getElem (by omega)] at hq
        exact Option.noConfusion hq
      constructor
      · simp only [applyOp, hq, notifies]
        simp
        omega
      · intro payload hp
        simp [applyOp, hq] at hp
  | refresh newTags =>
    constructor
    · simp [applyOp, componentDidUpdate, notifies]
    · intro payload hp
      simp [applyOp, componentDidUpdate] at hp

/-- Witness for the amended C3: the committed Delete of index 0 notifies
with exactly the committed projected list, here the single remaining
tag B. -/
theorem applyOp_notification_witness :
    [toItag tagB] =
      toITags (applyOp examplePalette exState (TagOp.del 0 KeyCodes.enter)).1.tags :=
  (applyOp_notification examplePalette exState
    (TagOp.del 0 KeyCodes.enter)).2 [toItag tagB] (by decide)

/-- Replacing every occurrence of the id selId by an id nid occurring
nowhere in the list keeps the id list duplicate-free. -/
theorem rename_ids_nodup (selId nid : String) :
    ∀ l : List IReactTag,
      (l.map IReactTag.id).Nodup → (∀ t ∈ l, t.id ≠ nid) →
      (l.map (fun rt => if rt.id = selId then nid else rt.id)).Nodup := by
  intro l
  induction l with
  | nil => intro _ _; simp
  | cons a rest ih =>
    intro hnd hfr
    simp only [List.map_cons] at hnd ⊢
    obtain ⟨hma, hrest⟩ := List.nodup_cons.mp hnd
    have hfa : a.id ≠ nid := hfr a (List.mem_cons_self a rest)
    have hfrest : ∀ t ∈ rest, t.id ≠ nid :=
      fun t ht => hfr t (List.mem_cons_of_mem a ht)
    rw [List.nodup_cons]
    by_cases hsel : a.id = selId
    · rw [if_pos hsel]
      have hnone : ∀ t ∈ rest, ¬ t.id = selId := by
        intro t ht hts
        exact hma (by
          rw [hsel, ← hts]
          exact List.mem_map_of_mem IReactTag.id ht)
      have hmapeq : rest.map (fun rt => if rt.id = selId then nid else rt.id) =
          rest.map IReactTag.id := by
        apply List.map_congr_left
        intro t ht
        rw [if_neg (hnone t ht)]
      rw [hmapeq]
      constructor
      · intro hmem
        rcases List.mem_map.mp hmem with ⟨t, ht, hts⟩
        exact hfrest t ht hts
      · exact hrest
    · rw [if_neg hsel]
      constructor
      · intro hmem
        rcases List.mem_map.mp hmem with ⟨t, ht, hts⟩
        by_cases hts2 : t.id = selId
        · rw [if_pos hts2] at hts
          exact hfa hts.symm
        · rw [if_neg hts2] at hts
          exact hma (hts ▸ List.mem_map_of_mem IReactTag.id ht)
      · exact ih hrest hfrest

/-- A rename/recolor commit keeps the tag names pairwise distinct, for
any selection stored in the state. -/
theorem handleEditedTag_uniqueNames (s : TagsInputState) (newTag : ITag)
    (hs : uniqueNames s.tags) : uniqueNames (handleEditedTag s newTag).1.tags := by
  cases hsel : s.selectedTag with
  | none => simpa [handleEditedTag, hsel] using hs
  | some sel =>
    by_cases hg : ((toReactTag newTag).id ≠ sel.id ∧
        s.tags.any (fun t => t.id = (toReactTag newTag).id) = true)
    · simp only [handleEditedTag, hsel]
      rw [if_pos hg]
      exact hs
    · simp only [handleEditedTag, hsel]
      rw [if_neg hg]
      unfold uniqueNames at hs ⊢
      simp only [List.map_map]
      have hfn : (IReactTag.id ∘ fun rt =>
          if rt.id = sel.id then addHtml (toReactTag newTag) else rt) =
          fun rt => if rt.id = sel.id then newTag.name else rt.id := by
        funext rt
        simp only [Function.comp]
        exact apply_ite IReactTag.id _ _ _
      rw [hfn]
      rcases not_and_or.mp hg with hA | hB
      · have heq : newTag.name = sel.id := not_not.mp hA
        have hid : (s.tags.map (fun rt => if rt.id = sel.id then newTag.name else rt.id)) =
            s.tags.map IReactTag.id := by
          apply List.map_congr_left
          intro t _
          by_cases h : t.id = sel.id
          · rw [if_pos h, heq, h]
          · rw [if_neg h]
        rw [hid]
        exact hs
      · have hfresh : ∀ t ∈ s.tags, t.id ≠ newTag.name := by
          intro t ht he
          exact hB (List.any_eq_true.mpr ⟨t, ht, by simpa [toReactTag] using he⟩)
        exact rename_ids_nodup sel.id newTag.name s.tags hs hfresh

/-- Every single committed operation preserves pairwise-distinct tag
names, an external refresh being constrained to an authoritative list
with unique keys. -/
theorem applyOp_uniqueNames (P : List String) (s : TagsInputState) (op : TagOp)
    (hs : uniqueNames s.tags) (hop : opOk op) :
    uniqueNames (applyOp P s op).1.tags := by
  cases op with
  | add reactTag =>
    by_cases hd : s.tags.any (fun t => t.id = reactTag.id) = true
    · simp only [applyOp, addTag]
      rw [if_pos hd]
      exact hs
    · have hfresh : ∀ t ∈ s.tags, t.id ≠ reactTag.id := by
        intro t ht he
        exact hd (List.any_eq_true.mpr ⟨t, ht, by simpa using he⟩)
      simp only [applyOp, addTag]
      rw [if_neg hd]
      show uniqueNames (s.tags ++
        [addHtml { reactTag with color := P.getD s.currentTagColorIndex "" }])
      unfold uniqueNames at hs ⊢
      rw [List.map_append]
      refine List.Nodup.append hs (by simp) ?_
      intro x hx hx2
      rcases List.mem_map.mp hx with ⟨t, ht, hts⟩
      have hxid : x = reactTag.id := by simpa using hx2
      exact hfresh t ht (by rw [hts, hxid])
  | edit sel newTag =>
    exact handleEditedTag_uniqueNames
      { s with selectedTag := some sel, showModal := true } newTag hs
  | del i keyCode =>
    by_cases hb : keyCode = KeyCodes.backspace
    · simp only [applyOp, handleDelete]
      rw [if_pos hb]
      exact hs
    · simp only [applyOp, handleDelete]
      rw [if_neg hb]
      show uniqueNames (filterIdxNe s.tags i)
      rw [filterIdxNe_eq_eraseIdx]
      unfold uniqueNames at hs ⊢
      exact List.Nodup.sublist (List.Sublist.map _ (List.eraseIdx_sublist s.tags i)) hs
  | drag currPos newPos =>
    cases hq : s.tags[currPos]? with
    | none => simpa [applyOp, hq] using hs
    | some tag =>
      have hlt : currPos < s.tags.length := by
        by_contra hge
        rw [List.getElem?_eq_none (by omega)] at hq
        exact Option.noConfusion hq
      have htag : tag = s.tags.get ⟨currPos, hlt⟩ := by
        have h2 := List.getElem?_eq_getElem hlt
        rw [hq] at h2
        exact Option.some.inj h2
      simp only [applyOp, hq]
      show uniqueNames
        (spliceInsertAt (spliceDeleteOne s.tags currPos) newPos tag)
      have hperm1 := spliceInsertAt_perm tag (spliceDeleteOne s.tags currPos) newPos
      have hperm2 : (tag :: spliceDeleteOne s.tags currPos).Perm s.tags := by
        rw [spliceDeleteOne_eq_eraseIdx, htag]
        exact get_cons_eraseIdx_perm s.tags currPos hlt
      have hperm := hperm1.trans hperm2
      unfold uniqueNames at hs ⊢
      exact ((hperm.map IReactTag.id).symm).nodup hs
  | refresh newTags =>
    simp only [applyOp, componentDidUpdate]
    show uniqueNames (toReactTags newTags)
    unfold uniqueNames
    rw [toReactTags, List.map_map]
    exact hop

/-- C1: along every sequence of committed operations — Add,
Rename/Recolor, Delete, Reorder, External refresh (the latter supplying an
authoritative list whose names are unique keys) — a Collection whose names
start pairwise distinct keeps them pairwise distinct after each commit
(every committed state is `runOps` of a prefix of the sequence, so the
statement covers each intermediate commit). -/
theorem runOps_uniqueNames (P : List String) (s : TagsInputState)
    (ops : List TagOp) (hs : uniqueNames s.tags)
    (hops : ∀ op ∈ ops, opOk op) :
    uniqueNames (runOps P s ops).tags := by
  induction ops generalizing s with
  | nil => exact hs
  | cons op rest ih =>
    simp only [runOps]
    exact ih (applyOp P s op).1
      (applyOp_uniqueNames P s op hs (hops op (List.mem_cons_self op rest)))
      (fun o ho => hops o (List.mem_cons_of_mem op ho))

/-- Witness for C1: a concrete run through all five operation kinds on the
two-tag state keeps the names pairwise distinct. -/
theorem runOps_uniqueNames_witness :
    uniqueNames exState.tags ∧
    (∀ op ∈ [TagOp.add (rawTag "C"),
        TagOp.edit tagA { name := "D", color := "pink" },
        TagOp.del 0 KeyCodes.enter,
        TagOp.drag 0 1,
        TagOp.refresh [{ name := "X", color := "red" },
          { name := "Y", color := "blue" }]], opOk op) ∧
    uniqueNames (runOps examplePalette exState
      [TagOp.add (rawTag "C"),
        TagOp.edit tagA { name := "D", color := "pink" },
        TagOp.del 0 KeyCodes.enter,
        TagOp.drag 0 1,
        TagOp.refresh [{ name := "X", color := "red" },
          { name := "Y", color := "blue" }]]).tags :=
  ⟨by decide, by decide,
    runOps_uniqueNames examplePalette exState _ (by decide) (by decide)⟩

end VoTT
